import Mathlib

/-
Verification of the markdown parser of `markdown-parser-react`
(`src/parser.tsx`, entry point `parse`).

The parser is embedded shallowly: every JavaScript regular expression of the
source is translated into an explicit character-list scanner with the same
matching semantics (anchoring, laziness, greediness and the one-character
advance of the regex engine on a failed match attempt), and the
`lines.forEach` dispatch loop of `parse` becomes the structural recursion
`processLines` over the list of lines, threading the same mutable state
(`inCodeBlock`, `codeBlockLang`, `codeBlock`, `nestingLevel`, `skipLines`).
Strings are `List Char`; `Nat`/`Int` stand for JavaScript numbers where they
occur (`maxNestingLevel` is an `Int`, since the JavaScript field is a
plain number).

Note: the source's `sanitize` helper (parser.tsx lines 145-154) is commented
out in the code, so the `sanitizeHtml` option is accepted but has no effect;
the embedding mirrors this by carrying the option without using it.
-/

abbrev Str := List Char

/-- The double-quote character, `"`. -/
def qch : Char := Char.ofNat 34

/-- The apostrophe character. -/
def apos : Char := Char.ofNat 39

/-- The backtick character used by code fences and inline code. -/
def btick : Char := Char.ofNat 96

/-- The opening curly brace character. -/
def obr : Char := Char.ofNat 123

/-- The closing curly brace character. -/
def cbr : Char := Char.ofNat 125

/-- The three-backtick code-fence delimiter. -/
def tickStr : Str := [btick, btick, btick]

/-- JavaScript `\s` / `String.prototype.trim` whitespace (ASCII part). -/
def jsWs (c : Char) : Bool :=
  c == ' ' || c == '\t' || c == '\n' || c == '\r' || c == Char.ofNat 11 || c == Char.ofNat 12

/-- JavaScript regex `.`: any character except a line terminator. -/
def dotM (c : Char) : Bool := !(c == '\n' || c == '\r')

/-- Left half of `String.prototype.trim`. -/
def trimL (s : Str) : Str := s.dropWhile jsWs

/-- Right half of `String.prototype.trim`. -/
def trimR (s : Str) : Str := (s.reverse.dropWhile jsWs).reverse

/-- `String.prototype.trim`. -/
def trim (s : Str) : Str := trimR (trimL s)

/-- `markdown.trim().split(/\r\n|\n/)`: split on `\r\n` or `\n`
(a lone `\r` is not a separator, as in the source regex). -/
def splitLines : Str → List Str
  | [] => [[]]
  | '\r' :: '\n' :: rest => [] :: splitLines rest
  | '\n' :: rest => [] :: splitLines rest
  | c :: rest =>
    match splitLines rest with
    | h :: t => (c :: h) :: t
    | [] => [[c]]

/-- `line.split("|")` (keeps empty fields, as JavaScript's split does). -/
def splitPipe : Str → List Str
  | [] => [[]]
  | c :: rest =>
    if c = '|' then [] :: splitPipe rest
    else
      match splitPipe rest with
      | h :: t => (c :: h) :: t
      | [] => [[c]]

/-- `row.split("|").slice(1, -1)`. -/
def innerCells (t : Str) : List Str := ((splitPipe t).drop 1).dropLast

/-- `String.prototype.includes` for a fixed pattern. -/
def hasSub (pat : Str) : Str → Bool
  | [] => pat.isEmpty
  | c :: rest => pat.isPrefixOf (c :: rest) || hasSub pat rest

/-- Character at index `i` (structural `charAt`, as in `line[i]`). -/
def charAt : Str → Nat → Option Char
  | [], _ => none
  | c :: _, 0 => some c
  | _ :: t, n + 1 => charAt t n

/-- Character at index `i` is JavaScript whitespace. -/
def wsAt (t : Str) (i : Nat) : Bool :=
  match charAt t i with
  | some c => jsWs c
  | none => false

/-- The trimmed line starts with the definition marker `:`. -/
def startsColon (t : Str) : Bool := t.head? == some ':'

/- ## Options and output nodes -/

/-- The element-type keys of `customClasses` / `customStyles`. -/
inductive ElementType where
  | headings | paragraphs | lists | blockquotes | codeBlocks | tables | links | images
deriving DecidableEq

/-- The `linkTarget` option's enumerated values. -/
inductive LinkTarget where
  | blank | self | parent | top
deriving DecidableEq

/-- String value of a `LinkTarget` (the JSX `target` attribute). -/
def ltStr : LinkTarget → Str
  | .blank => "_blank".data
  | .self => "_self".data
  | .parent => "_parent".data
  | .top => "_top".data

/-- `ParseOptions` with the defaults of the destructuring in `parse`.
A `customClasses`/`customStyles` entry equal to `[]` plays the part of an
absent (or empty, equally falsy) entry of the JavaScript maps.
`maxNestingLevel` is an `Int` because the TypeScript field is a `number`. -/
structure ParseOptions where
  langPrefix : Str := "language-".data
  customClasses : ElementType → Str := fun _ => []
  customStyles : ElementType → List (Str × Str) := fun _ => []
  linkTarget : LinkTarget := .blank
  sanitizeHtml : Bool := true
  maxNestingLevel : Int := 6

/-- Merged style/class of `getElementProperties` for a block element
(no locally computed style or class: `additionalProps = {}`),
normalised to `none` when empty, as the source does with `undefined`. -/
structure ElemProps where
  style : Option (List (Str × Str))
  className : Option Str
deriving DecidableEq

/-- `getElementProperties(elementType)` of the source, for block nodes. -/
def gep (opts : ParseOptions) (et : ElementType) : ElemProps :=
  { style := if (opts.customStyles et).isEmpty then none else some (opts.customStyles et)
    className := if (opts.customClasses et).isEmpty then none else some (opts.customClasses et) }

/-- Column alignment derived from a table alignment row. -/
inductive Align where
  | left | center | right
deriving DecidableEq

/-- Abstract output node, one constructor per `html.push` site of `parse`.
Inline-formatted payloads are stored as the markup text produced by
`processInlineFormatting`. For task and list nodes the pushed `style`
is the computed `marginLeft` (the merged custom style is overridden by the
JSX `style` prop), so only the nesting level and class name are kept. -/
inductive Node where
  | errorNode (msg : Str)
  | dl (term : Str) (defs : List Str) (props : ElemProps)
  | task (checked : Bool) (text : Str) (nesting : Nat) (className : Option Str)
  | heading (level : Nat) (id : Option Str) (text : Str) (props : ElemProps)
  | codeBlock (cls : Option Str) (code : Str) (props : ElemProps)
  | blockquote (text : Str) (citation : Option Str) (props : ElemProps)
  | table (header : List Str) (aligns : List Align) (body : List (List Str)) (props : ElemProps)
  | image (src : Str) (alt : Str) (title : Option Str) (props : ElemProps)
  | list (ordered : Bool) (nesting : Nat) (item : Str) (className : Option Str)
  | paragraph (html : Str) (props : ElemProps)
deriving DecidableEq

/-- The text of the nesting-guard error node. -/
def errText : Str := "Maximum nesting level reached".data

/- ## Inline formatter (`processInlineFormatting`) -/

/-- Lazy search for the closing delimiter of `D(.+?)D'`: the shortest
non-empty run of `.`-matching characters followed by `cd`.
Returns the captured content and its length. -/
def findClose (cd : Str) : Str → Option (Str × Nat)
  | [] => none
  | c :: rest =>
    if dotM c then
      if cd.isPrefixOf rest then some ([c], 1)
      else
        match findClose cd rest with
        | some (ct, n) => some (c :: ct, n + 1)
        | none => none
    else none

/-- Match attempt of `od(.+?)cd` anchored at the start of `s`;
returns the capture and the total matched length. -/
def tryDelim (od cd : Str) (s : Str) : Option (Str × Nat) :=
  if od.isPrefixOf s then
    match findClose cd (s.drop od.length) with
    | some (ct, n) => some (ct, od.length + n + cd.length)
    | none => none
  else none

/-- Global replace of `od(.+?)cd` by `pre ++ capture ++ post`; on a failed
match attempt the scan advances one character, as the regex engine does. -/
def scanDelim (fuel : Nat) (od cd pre post : Str) (s : Str) : Str :=
  match fuel with
  | 0 => s
  | fuel + 1 =>
    match s with
    | [] => []
    | c :: rest =>
      match tryDelim od cd (c :: rest) with
      | some (ct, n) => pre ++ ct ++ post ++ scanDelim fuel od cd pre post ((c :: rest).drop n)
      | none => c :: scanDelim fuel od cd pre post rest

/-- One `replacements` entry of the shape `regex: /od(.+?)cd/g`,
`replace: "pre$1post"`. Also covers the inline-code rule, whose greedy
`[^`]+` capture coincides with the lazy search for a one-character
delimiter. -/
def ruleDelim (od cd pre post : Str) (s : Str) : Str :=
  scanDelim s.length od cd pre post s

/-- URL character of the link rule: `[^)"'\s]`. -/
def linkUrlChar (c : Char) : Bool :=
  !(c == ')') && !(c == qch) && !(c == apos) && !jsWs c

/-- Attribute values of the produced anchor: strings, or a style object
(which the template literal stringifies as `[object Object]`). -/
inductive AttrVal where
  | str (v : Str)
  | obj (o : List (Str × Str))
deriving DecidableEq

/-- The `props` object built for a link: `getElementProperties("links",
{ href, ...(title && { title }), target, rel })`, in insertion order,
with `undefined` values as `none`. -/
def linkEntries (opts : ParseOptions) (url : Str) (title : Option Str) :
    List (Str × Option AttrVal) :=
  [("href".data, some (.str url))]
  ++ (match title with
      | some t => if t.isEmpty then [] else [("title".data, some (.str t))]
      | none => [])
  ++ [("target".data, some (.str (ltStr opts.linkTarget))),
      ("rel".data,
        if opts.linkTarget = LinkTarget.blank then some (.str "noopener noreferrer".data)
        else none),
      ("style".data,
        if (opts.customStyles .links).isEmpty then none
        else some (.obj (opts.customStyles .links))),
      ("className".data,
        if (opts.customClasses .links).isEmpty then none
        else some (.str (opts.customClasses .links)))]

/-- `Object.entries(props).filter(([_, value]) => value !== undefined)`. -/
def linkAttrs (opts : ParseOptions) (url : Str) (title : Option Str) :
    List (Str × AttrVal) :=
  (linkEntries opts url title).filterMap fun kv =>
    match kv.2 with
    | some v => some (kv.1, v)
    | none => none

/-- Template-literal stringification of an attribute value. -/
def valStr : AttrVal → Str
  | .str v => v
  | .obj _ => "[object Object]".data

/-- `.map(([key, value]) => `key="value"`).join(" ")`. -/
def attrsJoin (l : List (Str × AttrVal)) : Str :=
  List.intercalate " ".data (l.map fun kv => kv.1 ++ '=' :: qch :: valStr kv.2 ++ [qch])

/-- The string the link rule's replacement function returns. -/
def anchorStr (opts : ParseOptions) (txt url : Str) (title : Option Str) : Str :=
  "<a ".data ++ attrsJoin (linkAttrs opts url title) ++ '>' :: txt ++ "</a>".data

/-- Match attempt of the link regex
`\[([^\]]+)\]\(([^)"'\s]+)(?:\s+"([^"]+)")?\)` anchored at the start of
`s`; returns the matched length and the replacement string. -/
def tryLink (opts : ParseOptions) (s : Str) : Option (Nat × Str) :=
  match s with
  | '[' :: t =>
    let txt := t.takeWhile fun c => !(c == ']')
    if txt.isEmpty then none
    else
      match t.drop txt.length with
      | ']' :: '(' :: v =>
        let url := v.takeWhile linkUrlChar
        if url.isEmpty then none
        else
          match v.drop url.length with
          | ')' :: _ =>
            some (txt.length + url.length + 4, anchorStr opts txt url none)
          | c :: w =>
            if jsWs c then
              let ws := (c :: w).takeWhile jsWs
              match (c :: w).drop ws.length with
              | q :: w₃ =>
                if q = qch then
                  let ttl := w₃.takeWhile fun k => !(k == qch)
                  if ttl.isEmpty then none
                  else
                    match w₃.drop ttl.length with
                    | q₂ :: ')' :: _ =>
                      if q₂ = qch then
                        some (txt.length + url.length + ws.length + ttl.length + 7,
                          anchorStr opts txt url (some ttl))
                      else none
                    | _ => none
                else none
              | [] => none
            else none
          | [] => none
      | _ => none
  | _ => none

/-- Global replace of the link rule. -/
def scanLink (fuel : Nat) (opts : ParseOptions) (s : Str) : Str :=
  match fuel with
  | 0 => s
  | fuel + 1 =>
    match s with
    | [] => []
    | c :: rest =>
      match tryLink opts (c :: rest) with
      | some (n, rep) => rep ++ scanLink fuel opts ((c :: rest).drop n)
      | none => c :: scanLink fuel opts rest

/-- The link replacement rule. -/
def ruleLink (opts : ParseOptions) (s : Str) : Str := scanLink s.length opts s

/-- `processInlineFormatting`: the ordered `replacements.reduce` pipeline. -/
def fmt (opts : ParseOptions) (text : Str) : Str :=
  if text.isEmpty then []
  else
    let t1 := ruleDelim ['$'] ['$']
      ("<span class=".data ++ qch :: "math-inline".data ++ [qch]) "</span>".data text
    let t2 := ruleDelim ['~', '~'] ['~', '~'] "<del>".data "</del>".data t1
    let t3 := ruleDelim ['^'] ['^'] "<sup>".data "</sup>".data t2
    let t4 := ruleDelim ['~'] ['~'] "<sub>".data "</sub>".data t3
    let t5 := ruleDelim ['=', '='] ['=', '='] "<mark>".data "</mark>".data t4
    let t6 := ruleDelim ['*', '*', '*'] ['*', '*', '*'] "<strong><em>".data "</em></strong>".data t5
    let t7 := ruleDelim ['_', '_', '_'] ['_', '_', '_'] "<strong><em>".data "</em></strong>".data t6
    let t8 := ruleDelim ['*', '*'] ['*', '*'] "<strong>".data "</strong>".data t7
    let t9 := ruleDelim ['_', '_'] ['_', '_'] "<strong>".data "</strong>".data t8
    let t10 := ruleDelim ['*'] ['*'] "<em>".data "</em>".data t9
    let t11 := ruleDelim ['_'] ['_'] "<em>".data "</em>".data t10
    let t12 := ruleDelim [btick] [btick] "<code>".data "</code>".data t11
    ruleLink opts t12

/- ## Block recognizers -/

/-- Number of leading `#` characters. -/
def leadHashes (t : Str) : Nat := (t.takeWhile fun c => c == '#').length

/-- `/^#{1,6}\s/.test(line.trim())`: between one and six leading `#`
followed by a whitespace character. -/
def isHeadingLine (t : Str) : Bool :=
  decide (1 ≤ leadHashes t) && decide (leadHashes t ≤ 6) && wsAt t (leadHashes t)

/-- `line.match(/^#{1,6}/)?.[0].length || 1`, computed on the raw line. -/
def headingLevelOf (line : Str) : Nat :=
  if leadHashes line = 0 then 1 else min (leadHashes line) 6

/-- `line.replace(/^#{1,6}\s/, "")`, computed on the raw line. -/
def headingTextOf (line : Str) : Str :=
  if 1 ≤ leadHashes line ∧ leadHashes line ≤ 6 ∧ wsAt line (leadHashes line) then
    line.drop (leadHashes line + 1)
  else line

/-- Match attempt of `\{#([^}]+)\}` anchored at the start of `s`:
the id and the remainder after the closing brace. -/
def idAt (s : Str) : Option (Str × Str) :=
  match s with
  | a :: b :: r₂ =>
    if a = obr ∧ b = '#' then
      let inner := r₂.takeWhile fun k => !(k == cbr)
      if inner.isEmpty then none
      else if (r₂.drop inner.length).head? == some cbr then
        some (inner, r₂.drop (inner.length + 1))
      else none
    else none
  | _ => none

/-- Leftmost match of `\{#([^}]+)\}`: text before, the id, text after. -/
def splitId : Str → Option (Str × Str × Str)
  | [] => none
  | c :: rest =>
    match idAt (c :: rest) with
    | some (inner, after) => some ([], inner, after)
    | none =>
      match splitId rest with
      | some (p, i, q) => some (c :: p, i, q)
      | none => none

/-- `idMatch ? idMatch[1] : undefined`. -/
def headingId (t : Str) : Option Str := (splitId t).map fun pr => pr.2.1

/-- `text.replace(/\{#([^}]+)\}/, "").trim()`. -/
def headingClean (t : Str) : Str :=
  match splitId t with
  | some (p, _, q) => trim (p ++ q)
  | none => trim t

/-- `/^(\s*)-\s\[(x| )\]/.test(line.trim())` (on a trimmed line the
leading `\s*` is empty). -/
def isTask (t : Str) : Bool :=
  (charAt t 0 == some '-') && wsAt t 1 && (charAt t 2 == some '[') &&
    ((charAt t 3 == some 'x') || (charAt t 3 == some ' ')) && (charAt t 4 == some ']')

/-- `line.replace(/^(\s*)-\s\[(x| )\]\s*/, "")`, on the raw line. -/
def taskText (line : Str) : Str :=
  let ind := line.takeWhile jsWs
  match line.drop ind.length with
  | '-' :: c :: '[' :: x :: ']' :: r₂ =>
    if jsWs c ∧ (x = 'x' ∨ x = ' ') then r₂.dropWhile jsWs else line
  | _ => line

/-- Tail of `/^```(\S+)?(\s+\{.*\})?$/`: `\s+\{.*\}$`. -/
def braceTail (r₂ : Str) : Bool :=
  let u := r₂.takeWhile jsWs
  if u.isEmpty then false
  else
    match r₂.drop u.length with
    | c :: rest =>
      (c == obr) &&
        (match rest.getLast? with
         | some d => d == cbr
         | none => false) && rest.dropLast.all dotM
    | [] => false

/-- `/^```(\S+)?(\s+\{.*\})?$/.test(line.trim())`. -/
def isFence (t : Str) : Bool :=
  (t.take 3 == tickStr) &&
    (let r := t.drop 3
     let w := r.takeWhile fun c => !jsWs c
     let r₂ := r.drop w.length
     r₂.isEmpty || braceTail r₂)

/-- `line.trim().match(/^```(\S+)?/)?.[1] || null`. -/
def langOf (t : Str) : Option Str :=
  let w := (t.drop 3).takeWhile fun c => !jsWs c
  if w.isEmpty then none else some w

/-- `/^>\s/.test(line.trim())`. -/
def isQuote (t : Str) : Bool := (charAt t 0 == some '>') && wsAt t 1

/-- `\s+--\s+(.+)$` matches the given suffix (the citation part of the
blockquote regex, with greedy runs and backtracking resolved). -/
def citationOk (v : Str) : Bool :=
  let w := v.takeWhile jsWs
  !w.isEmpty && ((v.drop w.length).take 2 == "--".data) &&
    (let u₂ := v.drop (w.length + 2)
     wsAt u₂ 0 && decide (2 ≤ u₂.length) &&
       (u₂.drop (min (u₂.takeWhile jsWs).length (u₂.length - 1))).all dotM)

/-- The `(.+)` capture of a successful citation-suffix match. -/
def citCap (v : Str) : Str :=
  let w := v.takeWhile jsWs
  let u₂ := v.drop (w.length + 2)
  u₂.drop (min (u₂.takeWhile jsWs).length (u₂.length - 1))

/-- The lazy `(.+?)` walk of `^>\s?(.+?)(?:\s+--\s+(.+))?$`: at each
length, first try the citation group, then the end anchor, else extend. -/
def citWalk (acc : Str) : Str → Option (Str × Option Str)
  | [] => none
  | c :: rest =>
    if dotM c then
      if citationOk rest then some (acc ++ [c], some (citCap rest))
      else
        match rest with
        | [] => some (acc ++ [c], none)
        | _ :: _ => citWalk (acc ++ [c]) rest
    else none

/-- `line.match(/^>\s?(.+?)(?:\s+--\s+(.+))?$/)` on the raw line:
the quoted text and the optional citation. -/
def citMatch (line : Str) : Option (Str × Option Str) :=
  match line with
  | '>' :: tail =>
    match tail with
    | [] => none
    | c :: rest =>
      if jsWs c ∧ rest ≠ [] then citWalk [] rest else citWalk [] (c :: rest)
  | _ => none

/-- `/^\|(.+\|)+/.test(t)`: a `|`, then at least one non-empty chunk
ending in `|` (so a second `|` at index 2 or later). -/
def isTableLine (t : Str) : Bool :=
  (charAt t 0 == some '|') && (t.drop 2).any fun c => c == '|'

/-- One group of `/^\|(\s*:?-+:?\s*\|)+/` after the opening `|`
(one group suffices for `.test`). -/
def alignGroup (r : Str) : Bool :=
  let r₁ := r.dropWhile jsWs
  let r₂ := if r₁.head? == some ':' then r₁.drop 1 else r₁
  let ds := r₂.takeWhile fun c => c == '-'
  if ds.isEmpty then false
  else
    let r₃ := r₂.drop ds.length
    let r₄ := if r₃.head? == some ':' then r₃.drop 1 else r₃
    (r₄.dropWhile jsWs).head? == some '|'

/-- `/^\|(\s*:?-+:?\s*\|)+/.test(t)`. -/
def isAlignRow (t : Str) : Bool :=
  match t with
  | c :: r => (c == '|') && alignGroup r
  | [] => false

/-- Per-column alignment from an alignment row (`cell.trim()` then the
leading/trailing-colon tests of the source). -/
def parseAligns (t : Str) : List Align :=
  (innerCells t).map fun cell =>
    let c := trim cell
    if (c.head? == some ':') && (c.getLast? == some ':') then Align.center
    else if c.getLast? == some ':' then Align.right
    else Align.left

/-- URL character of the image rule: `[^)\s]`. -/
def imgUrlChar (c : Char) : Bool := !(c == ')') && !jsWs c

/-- Match attempt of `!\[([^\]]*)\]\(([^)\s]+)(?:\s+"([^"]+)")?\)`
anchored at the start of `s`: alt text, src, optional title. -/
def tryImage (s : Str) : Option (Str × Str × Option Str) :=
  match s with
  | '!' :: '[' :: t =>
    let alt := t.takeWhile fun c => !(c == ']')
    (match t.drop alt.length with
     | ']' :: '(' :: v =>
       let src := v.takeWhile imgUrlChar
       if src.isEmpty then none
       else
         match v.drop src.length with
         | ')' :: _ => some (alt, src, none)
         | c :: w =>
           if jsWs c then
             let ws := (c :: w).takeWhile jsWs
             match (c :: w).drop ws.length with
             | q :: w₃ =>
               if q = qch then
                 let ttl := w₃.takeWhile fun k => !(k == qch)
                 if ttl.isEmpty then none
                 else
                   match w₃.drop ttl.length with
                   | q₂ :: ')' :: _ => if q₂ = qch then some (alt, src, some ttl) else none
                   | _ => none
               else none
             | [] => none
           else none
         | [] => none
     | _ => none)
  | _ => none

/-- Leftmost (unanchored) match of the image regex on the trimmed line. -/
def findImage : Str → Option (Str × Str × Option Str)
  | [] => none
  | c :: rest =>
    match tryImage (c :: rest) with
    | some r => some r
    | none => findImage rest

/-- Bullet alternative `[-*+]` followed by one whitespace (trimmed line). -/
def isBullet (t : Str) : Bool :=
  ((charAt t 0 == some '-') || (charAt t 0 == some '*') || (charAt t 0 == some '+')) && wsAt t 1

/-- Numbered alternative `\d+\.` followed by one whitespace (trimmed line). -/
def isNumbered (t : Str) : Bool :=
  let ds := t.takeWhile fun c => c.isDigit
  !ds.isEmpty && (charAt t ds.length == some '.') && wsAt t (ds.length + 1)

/-- `/^(\s*)([-*+]|\d+\.)\s/.test(line.trim())`. -/
def isListLine (t : Str) : Bool := isBullet t || isNumbered t

/-- `/^\s*\d+\./.test(line)` on the raw line. -/
def isOrderedRaw (line : Str) : Bool :=
  let t := line.drop (line.takeWhile jsWs).length
  let ds := t.takeWhile fun c => c.isDigit
  !ds.isEmpty && (charAt t ds.length == some '.')

/-- `line.replace(/^(\s*)([-*+]|\d+\.)\s/, "")` on the raw line. -/
def listText (line : Str) : Str :=
  let t := line.drop (line.takeWhile jsWs).length
  if isBullet t then t.drop 2
  else if isNumbered t then t.drop ((t.takeWhile fun c => c.isDigit).length + 2)
  else line

/-- The table re-trigger guard `index > 0 && /^\|(.+\|)+/.test(lines[index - 1].trim())`:
the previous line exists and is itself a table row. -/
def prevIsTable (prev : Option Str) : Bool :=
  match prev with
  | some p => isTableLine (trim p)
  | none => false

/-- The definition-list trigger: a following line exists, the current
trimmed line is non-empty and not itself `:`-prefixed, and the next
trimmed line is `:`-prefixed. -/
def defTrigger (cur : Str) (rest : List Str) : Bool :=
  match rest with
  | [] => false
  | nx :: _ => !cur.isEmpty && !startsColon cur && startsColon (trim nx)

/- ## The scanning loop (`lines.forEach` of `parse`) -/

/-- The per-call mutable scanning state of `parse`. -/
structure PState where
  inCodeBlock : Bool
  codeBlockLang : Option Str
  codeBlock : List Str
  nestingLevel : Nat
  skipLines : Nat
deriving DecidableEq

/-- The initial scanning state. -/
def st0 : PState :=
  { inCodeBlock := false, codeBlockLang := none, codeBlock := [], nestingLevel := 0
    skipLines := 0 }

/-- One pass of `lines.forEach(...)`: `prev` is the previous line
(`lines[index - 1]`, used by the table re-trigger guard); all other
lookahead reads `lines[index + 1], ...`, i.e. `rest`. The local
`index++` of the table branch does not advance this loop, exactly as
mutating the `forEach` callback parameter does not in JavaScript. -/
def processLines (opts : ParseOptions) : List Str → Option Str → PState → List Node
  | [], _, _ => []
  | line :: rest, prev, st =>
    if 0 < st.skipLines then
      processLines opts rest (some line) { st with skipLines := st.skipLines - 1 }
    else if (st.nestingLevel : Int) > opts.maxNestingLevel then
      Node.errorNode errText :: processLines opts rest (some line) st
    else
      let cur := trim line
      if defTrigger cur rest then
        let ds := rest.takeWhile fun l => startsColon (trim l)
        let defs := ds.map fun l => trim ((trim l).drop 1)
        Node.dl (fmt opts cur) (defs.map (fmt opts)) (gep opts .lists) ::
          processLines opts rest (some line) { st with skipLines := ds.length }
      else if isTask cur then
        let indent := (line.takeWhile jsWs).length
        Node.task (hasSub "[x]".data line) (fmt opts (taskText line)) (indent / 2)
            (gep opts .lists).className ::
          processLines opts rest (some line) { st with nestingLevel := indent / 2 }
      else if isHeadingLine cur then
        Node.heading (headingLevelOf line) (headingId (headingTextOf line))
            (fmt opts (headingClean (headingTextOf line))) (gep opts .headings) ::
          processLines opts rest (some line) st
      else if isFence cur then
        if st.inCodeBlock then
          Node.codeBlock (st.codeBlockLang.map fun lg => opts.langPrefix ++ lg)
              (List.intercalate ['\n'] st.codeBlock) (gep opts .codeBlocks) ::
            processLines opts rest (some line)
              { st with inCodeBlock := false, codeBlock := [], codeBlockLang := none }
        else
          processLines opts rest (some line)
            { st with inCodeBlock := true, codeBlockLang := langOf cur, codeBlock := [] }
      else if st.inCodeBlock then
        processLines opts rest (some line) { st with codeBlock := st.codeBlock ++ [line] }
      else if isQuote cur then
        match citMatch line with
        | some (txt, cit) =>
          Node.blockquote (fmt opts txt) cit (gep opts .blockquotes) ::
            processLines opts rest (some line) st
        | none =>
          Node.blockquote (fmt opts ((trim line).drop 2)) none (gep opts .blockquotes) ::
            processLines opts rest (some line) st
      else if isTableLine cur then
        if prevIsTable prev then
          processLines opts rest (some line) st
        else if isAlignRow cur then
          processLines opts rest (some line) st
        else
          let aw : List Align × List Str :=
            match rest with
            | nx :: tl => if isAlignRow (trim nx) then (parseAligns (trim nx), tl) else ([], rest)
            | [] => ([], [])
          let body := aw.2.takeWhile fun l => isTableLine (trim l) && !isAlignRow (trim l)
          Node.table ((innerCells cur).map fun c => fmt opts (trim c)) aw.1
              (body.map fun r => (innerCells (trim r)).map fun c => fmt opts (trim c))
              (gep opts .tables) ::
            processLines opts rest (some line) st
      else
        match findImage cur with
        | some (alt, src, title) =>
          Node.image src alt title (gep opts .images) ::
            processLines opts rest (some line) st
        | none =>
          if isListLine cur then
            let indent := (line.takeWhile jsWs).length
            Node.list (isOrderedRaw line) (indent / 2) (fmt opts (listText line))
                (gep opts .lists).className ::
              processLines opts rest (some line) { st with nestingLevel := indent / 2 }
          else
            let pt := fmt opts cur
            if (trim pt).isEmpty then processLines opts rest (some line) st
            else Node.paragraph pt (gep opts .paragraphs) ::
              processLines opts rest (some line) st

/-- `parse(markdown, options)`: trim, split into lines, scan. -/
def parse (markdown : Str) (opts : ParseOptions) : List Node :=
  processLines opts (splitLines (trim markdown)) none st0

/-- Default options (every `ParseOptions` field at its default). -/
def defaultOpts : ParseOptions := {}

/-- The previous line after skipping `ds`: the last of `ds`, or the
incoming previous line when `ds` is empty. -/
def lastOr : List Str → Option Str → Option Str
  | [], prev => prev
  | d :: ds, _ => lastOr ds (some d)

/-- A line that, inside an open code fence, reaches the buffering branch:
it matches none of the fence pattern and the (earlier-checked)
task, heading and definition-marker patterns. -/
def plainInFence (l : Str) : Prop :=
  isFence (trim l) = false ∧ isTask (trim l) = false ∧
    isHeadingLine (trim l) = false ∧ startsColon (trim l) = false

/-- Recognizer of code-block output nodes. -/
def isCodeBlockNode : Node → Bool
  | .codeBlock _ _ _ => true
  | _ => false

/- ## Claim theorems -/

/-- C1: with the sanitizer commented out in the source, `sanitizeHtml` has no
effect: for either value of the option, the input `<script>` reaches the
output paragraph verbatim, with `<` and `>` unescaped (the claim's
`sanitizeHtml: true` half is thereby violated by the code). -/
theorem c1_sanitize_dead (b : Bool) :
    parse "<script>".data { sanitizeHtml := b } =
      [Node.paragraph "<script>".data ⟨none, none⟩] := rfl

/-- C4: with `maxNestingLevel = 3` and a list nested 7 levels deep
(2 spaces per level), the output is five list nodes followed by two
error nodes, and an error node with text "Maximum nesting level reached"
occurs in the output; past the ceiling each line yields only the error node. -/
theorem c4_nesting_guard :
    parse ("- Level 1\n  - Level 2\n    - Level 3\n      - Level 4\n        - Level 5\n          - Level 6\n            - Level 7").data
        { maxNestingLevel := 3 } =
      [Node.list false 0 "Level 1".data none, Node.list false 1 "Level 2".data none,
       Node.list false 2 "Level 3".data none, Node.list false 3 "Level 4".data none,
       Node.list false 4 "Level 5".data none, Node.errorNode errText, Node.errorNode errText]
    ∧ Node.errorNode "Maximum nesting level reached".data ∈
        parse ("- Level 1\n  - Level 2\n    - Level 3\n      - Level 4\n        - Level 5\n          - Level 6\n            - Level 7").data
          { maxNestingLevel := 3 } := by
  constructor
  · rfl
  · decide

/-- C5: a pipe-delimited header row with no alignment row and no body rows
yields exactly one table node, a 2-cell header, and an empty body. -/
theorem c5_header_only_table :
    parse "| H1 | H2 |".data defaultOpts =
      [Node.table ["H1".data, "H2".data] [] [] ⟨none, none⟩]
    ∧ ["H1".data, "H2".data].length = 2 ∧ ([] : List (List Str)).length = 0 := by
  refine ⟨rfl, rfl, rfl⟩

/-- C6: the triple-emphasis rule runs before the bold and italic rules, so
`***x***` and `___x___` each become the single combined span
`<strong><em>x</em></strong>`, for any options. -/
theorem c6_triple_emphasis (opts : ParseOptions) :
    fmt opts "***x***".data = "<strong><em>x</em></strong>".data
    ∧ fmt opts "___x___".data = "<strong><em>x</em></strong>".data :=
  ⟨rfl, rfl⟩

/-- C2 counterexample: in `"| A |\n| B |\n: x"` the table consumes the body
row `| B |`, yet the cursor re-visits that row and the definition-list rule
classifies it again, so the output has a second node built from a consumed
line — refuting that consumed lines are never re-visited or re-classified. -/
theorem c2_counterexample :
    parse ("| A |\n| B |\n: x").data defaultOpts =
      [Node.table ["A".data] [] [["B".data]] ⟨none, none⟩,
       Node.dl "| B |".data ["x".data] ⟨none, none⟩]
    ∧ (parse ("| A |\n| B |\n: x").data defaultOpts).length = 2 := ⟨rfl, rfl⟩

/-- C3 counterexample: the line `####### ![a](b)` has more than six leading
`#`, but it does not fall through to the paragraph rule: the unanchored
image rule captures it and emits an image node. -/
theorem c3_counterexample :
    parse "####### ![a](b)".data defaultOpts =
      [Node.image "b".data "a".data none ⟨none, none⟩]
    ∧ Node.image "b".data "a".data none ⟨none, none⟩ ≠
        Node.paragraph (fmt defaultOpts (trim "####### ![a](b)".data)) ⟨none, none⟩ := by
  exact ⟨rfl, by decide⟩

/-- C8 counterexample: with `maxNestingLevel := -1` (a representable value of
the numeric option), the nesting guard fires even on the empty string and the
output is one error node, not the empty sequence. -/
theorem c8_counterexample :
    parse [] { maxNestingLevel := -1 } = [Node.errorNode errText] := rfl

/-- C10: once the running nesting level exceeds the ceiling (with no pending
skipped lines, as holds whenever the level is raised), every remaining line —
blank lines included — yields exactly one error node and nothing else, and
the state is never reset. -/
theorem c10_error_persists (opts : ParseOptions) (lines : List Str) (prev : Option Str)
    (st : PState) (hskip : st.skipLines = 0)
    (hnest : (st.nestingLevel : Int) > opts.maxNestingLevel) :
    processLines opts lines prev st = lines.map fun _ => Node.errorNode errText := by
  induction lines generalizing prev with
  | nil => rfl
  | cons l rest ih =>
    simp only [processLines, hskip, lt_irrefl, if_false, if_pos hnest, List.map_cons]
    rw [ih]

/-- C10 witness: from a state whose nesting level (7) exceeds the default
ceiling (6), two remaining lines produce exactly two error nodes. -/
theorem c10_error_persists_witness :
    processLines defaultOpts ["a".data, []] none
        { st0 with nestingLevel := 7 } =
      [Node.errorNode errText, Node.errorNode errText] :=
  c10_error_persists defaultOpts ["a".data, []] none { st0 with nestingLevel := 7 } rfl
    (by decide)

/-- C8 amended: the empty string parses to the empty node sequence for every
options value whose `maxNestingLevel` is non-negative (with a negative
ceiling the nesting guard fires even on empty input). -/
theorem c8_amended (opts : ParseOptions) (h : 0 ≤ opts.maxNestingLevel) :
    parse [] opts = [] := by
  have hg : ¬ ((st0.nestingLevel : Int) > opts.maxNestingLevel) := by
    simpa using not_lt.mpr h
  show processLines opts [[]] none st0 = []
  simp only [processLines]
  rw [if_neg hg]
  rfl

/-- C8 amended witness: the empty string parses to the empty sequence at the
default options. -/
theorem c8_amended_witness : parse [] defaultOpts = [] :=
  c8_amended defaultOpts (by decide)

/-- C7: in the anchor produced for a link token, the attribute list carries
`rel="noopener noreferrer"` exactly when the configured `linkTarget` is
`_blank`; for every other target no `rel` attribute appears. -/
theorem c7_link_rel (opts : ParseOptions) (url : Str) (title : Option Str) :
    (linkAttrs opts url title).filter (fun kv => kv.1 == "rel".data) =
      (if opts.linkTarget = LinkTarget.blank then
        [("rel".data, AttrVal.str "noopener noreferrer".data)]
       else []) := by
  cases h : opts.linkTarget <;> cases title <;>
    simp only [linkAttrs, linkEntries, h] <;> split_ifs <;> rfl

theorem fence_shape (t : Str) (h : isFence t = true) :
    ∃ r, t = btick :: btick :: btick :: r := by
  have h3 : t.take 3 == tickStr := by
    have h2 := h
    unfold isFence at h2
    rw [Bool.and_eq_true] at h2
    exact h2.1
  rcases t with _ | ⟨a, _ | ⟨b, _ | ⟨c, r⟩⟩⟩ <;> simp [tickStr, List.take] at h3
  · obtain ⟨ha, hb, hc⟩ := h3
    subst ha; subst hb; subst hc
    exact ⟨r, rfl⟩

theorem fence_not_task (t : Str) (h : isFence t = true) : isTask t = false := by
  obtain ⟨r, rfl⟩ := fence_shape t h
  rfl

theorem fence_not_heading (t : Str) (h : isFence t = true) : isHeadingLine t = false := by
  obtain ⟨r, rfl⟩ := fence_shape t h
  rfl

theorem fence_not_colon (t : Str) (h : isFence t = true) : startsColon t = false := by
  obtain ⟨r, rfl⟩ := fence_shape t h
  rfl

theorem fence_not_empty (t : Str) (h : isFence t = true) : t.isEmpty = false := by
  obtain ⟨r, rfl⟩ := fence_shape t h
  rfl

theorem defTrigger_false_of_next (cur nx : Str) (tl : List Str)
    (h : startsColon (trim nx) = false) : defTrigger cur (nx :: tl) = false := by
  simp [defTrigger, h]

theorem fence_buffer_empty (opts : ParseOptions) (rest : List Str) (prev : Option Str)
    (st : PState) (hin : st.inCodeBlock = true) (hskip : st.skipLines = 0)
    (hg : ¬ ((st.nestingLevel : Int) > opts.maxNestingLevel))
    (hplain : ∀ l ∈ rest, plainInFence l) :
    processLines opts rest prev st = [] := by
  induction rest generalizing prev st with
  | nil => rfl
  | cons l rest ih =>
    obtain ⟨hf, ht, hh, _⟩ := hplain l (List.mem_cons_self l rest)
    have hrest : ∀ x ∈ rest, plainInFence x := fun x hx => hplain x (List.mem_cons_of_mem l hx)
    have hd : defTrigger (trim l) rest = false := by
      cases rest with
      | nil => rfl
      | cons nx tl => exact defTrigger_false_of_next _ nx tl (hplain nx (by simp)).2.2.2
    simp only [processLines, hskip, lt_irrefl, if_false, if_neg hg, hd, ht, hh, hf,
      Bool.false_eq_true, hin, if_true]
    exact ih _ _ rfl rfl hg hrest

theorem step_no_codeblock (opts : ParseOptions) (l : Str) (rest : List Str)
    (prev : Option Str) (st : PState) (hl : isFence (trim l) = false) :
    ∀ n ∈ processLines opts (l :: rest) prev st,
      isCodeBlockNode n = false ∨ ∃ prev' st', n ∈ processLines opts rest prev' st' := by
  intro n hn
  simp only [processLines] at hn
  by_cases c1 : 0 < st.skipLines
  · rw [if_pos c1] at hn
    exact Or.inr ⟨_, _, hn⟩
  rw [if_neg c1] at hn
  by_cases c2 : (st.nestingLevel : Int) > opts.maxNestingLevel
  · rw [if_pos c2] at hn
    rcases List.mem_cons.mp hn with rfl | hmem
    · exact Or.inl rfl
    · exact Or.inr ⟨_, _, hmem⟩
  rw [if_neg c2] at hn
  by_cases c3 : defTrigger (trim l) rest = true
  · rw [if_pos c3] at hn
    rcases List.mem_cons.mp hn with rfl | hmem
    · exact Or.inl rfl
    · exact Or.inr ⟨_, _, hmem⟩
  rw [if_neg c3] at hn
  by_cases c4 : isTask (trim l) = true
  · rw [if_pos c4] at hn
    rcases List.mem_cons.mp hn with rfl | hmem
    · exact Or.inl rfl
    · exact Or.inr ⟨_, _, hmem⟩
  rw [if_neg c4] at hn
  by_cases c5 : isHeadingLine (trim l) = true
  · rw [if_pos c5] at hn
    rcases List.mem_cons.mp hn with rfl | hmem
    · exact Or.inl rfl
    · exact Or.inr ⟨_, _, hmem⟩
  rw [if_neg c5] at hn
  rw [if_neg (by simp [hl] : ¬ (isFence (trim l) = true))] at hn
  by_cases c6 : st.inCodeBlock = true
  · rw [if_pos c6] at hn
    exact Or.inr ⟨_, _, hn⟩
  rw [if_neg c6] at hn
  by_cases c7 : isQuote (trim l) = true
  · rw [if_pos c7] at hn
    rcases hq : citMatch l with _ | ⟨txt, cit⟩ <;> simp only [hq] at hn <;>
      rcases List.mem_cons.mp hn with rfl | hmem
    · exact Or.inl rfl
    · exact Or.inr ⟨_, _, hmem⟩
    · exact Or.inl rfl
    · exact Or.inr ⟨_, _, hmem⟩
  rw [if_neg c7] at hn
  by_cases c8 : isTableLine (trim l) = true
  · rw [if_pos c8] at hn
    by_cases c9 : prevIsTable prev = true
    · rw [if_pos c9] at hn
      exact Or.inr ⟨_, _, hn⟩
    rw [if_neg c9] at hn
    by_cases c10 : isAlignRow (trim l) = true
    · rw [if_pos c10] at hn
      exact Or.inr ⟨_, _, hn⟩
    rw [if_neg c10] at hn
    rcases List.mem_cons.mp hn with rfl | hmem
    · exact Or.inl rfl
    · exact Or.inr ⟨_, _, hmem⟩
  rw [if_neg c8] at hn
  rcases himg : findImage (trim l) with _ | ⟨alt, src, ttl⟩ <;> simp only [himg] at hn
  · by_cases c11 : isListLine (trim l) = true
    · rw [if_pos c11] at hn
      rcases List.mem_cons.mp hn with rfl | hmem
      · exact Or.inl rfl
      · exact Or.inr ⟨_, _, hmem⟩
    rw [if_neg c11] at hn
    by_cases c12 : (trim (fmt opts (trim l))).isEmpty = true
    · rw [if_pos c12] at hn
      exact Or.inr ⟨_, _, hn⟩
    rw [if_neg c12] at hn
    rcases List.mem_cons.mp hn with rfl | hmem
    · exact Or.inl rfl
    · exact Or.inr ⟨_, _, hmem⟩
  · rcases List.mem_cons.mp hn with rfl | hmem
    · exact Or.inl rfl
    · exact Or.inr ⟨_, _, hmem⟩

theorem no_fence_no_codeblock (opts : ParseOptions) (lines : List Str) (prev : Option Str)
    (st : PState) (hfence : ∀ l ∈ lines, isFence (trim l) = false) :
    ∀ n ∈ processLines opts lines prev st, isCodeBlockNode n = false := by
  induction lines generalizing prev st with
  | nil => intro n hn; simp [processLines] at hn
  | cons l rest ih =>
    intro n hn
    have hl := hfence l (List.mem_cons_self l rest)
    have hrest : ∀ x ∈ rest, isFence (trim x) = false := fun x hx =>
      hfence x (List.mem_cons_of_mem l hx)
    rcases step_no_codeblock opts l rest prev st hl n hn with h | ⟨prev', st', hmem⟩
    · exact h
    · exact ih prev' st' hrest n hmem

/-- C9: after a code fence opens and no later line matches the fence pattern,
(a) no code-block node is ever emitted (the buffer is never flushed), and
(b) when every following line actually reaches the buffering branch (none
matches the earlier-checked task, heading or definition-marker patterns),
the buffered lines produce no node at all: the content is silently absent. -/
theorem c9_unclosed_fence (opts : ParseOptions) (f : Str) (rest : List Str)
    (prev : Option Str) (st : PState)
    (hin : st.inCodeBlock = false) (hskip : st.skipLines = 0)
    (hg : ¬ ((st.nestingLevel : Int) > opts.maxNestingLevel))
    (hf : isFence (trim f) = true)
    (hnofence : ∀ l ∈ rest, isFence (trim l) = false) :
    (∀ n ∈ processLines opts (f :: rest) prev st, isCodeBlockNode n = false)
    ∧ ((∀ l ∈ rest, plainInFence l) → processLines opts (f :: rest) prev st = []) := by
  have hnt := fence_not_task _ hf
  have hnh := fence_not_heading _ hf
  constructor
  · intro n hn
    simp only [processLines] at hn
    rw [if_neg (by simp [hskip])] at hn
    rw [if_neg hg] at hn
    by_cases c3 : defTrigger (trim f) rest = true
    · rw [if_pos c3] at hn
      rcases List.mem_cons.mp hn with rfl | hmem
      · rfl
      · exact no_fence_no_codeblock opts rest _ _ hnofence n hmem
    rw [if_neg c3] at hn
    rw [if_neg (by simp [hnt] : ¬ (isTask (trim f) = true))] at hn
    rw [if_neg (by simp [hnh] : ¬ (isHeadingLine (trim f) = true))] at hn
    rw [if_pos hf] at hn
    rw [if_neg (by simp [hin] : ¬ (st.inCodeBlock = true))] at hn
    exact no_fence_no_codeblock opts rest _ _ hnofence n hn
  · intro hplain
    have hd : defTrigger (trim f) rest = false := by
      cases rest with
      | nil => rfl
      | cons nx tl => exact defTrigger_false_of_next _ nx tl (hplain nx (by simp)).2.2.2
    simp only [processLines]
    rw [if_neg (by simp [hskip]), if_neg hg, if_neg (by simp [hd]), if_neg (by simp [hnt]),
      if_neg (by simp [hnh]), if_pos hf, if_neg (by simp [hin])]
    exact fence_buffer_empty opts rest (some f) _ rfl hskip hg hplain

/-- C9 witness: the input ```` ``` ```` followed by the single line `hello`
(never closed) parses to the empty node sequence. -/
theorem c9_unclosed_fence_witness :
    processLines defaultOpts ["```".data, "hello".data] none st0 = [] :=
  (c9_unclosed_fence defaultOpts "```".data ["hello".data] none st0 rfl rfl (by decide)
    (by decide) (by decide)).2 (fun l hl => by
      rw [List.mem_singleton] at hl
      subst hl
      exact ⟨by decide, by decide, by decide, by decide⟩)

theorem skip_consumes (opts : ParseOptions) (ds : List Str) :
    ∀ (rest : List Str) (prev : Option Str) (st : PState), st.skipLines = ds.length →
      processLines opts (ds ++ rest) prev st =
        processLines opts rest (lastOr ds prev) { st with skipLines := 0 } := by
  induction ds with
  | nil =>
    intro rest prev st hskip
    have h0 : st.skipLines = 0 := by simpa using hskip
    show processLines opts rest prev st = _
    rw [← h0]
    rfl
  | cons d ds ih =>
    intro rest prev st hskip
    have hpos : 0 < st.skipLines := by rw [hskip]; exact Nat.succ_pos _
    show processLines opts (d :: (ds ++ rest)) prev st = _
    simp only [processLines]
    rw [if_pos hpos]
    rw [ih rest (some d) _ (by simp [hskip])]
    rfl

theorem dl_single_node (opts : ParseOptions) (t : Str) (ds rest : List Str)
    (prev : Option Str) (st : PState)
    (hskip : st.skipLines = 0) (hg : ¬ ((st.nestingLevel : Int) > opts.maxNestingLevel))
    (hne : ds ≠ []) (hcur : (trim t).isEmpty = false) (hcol : startsColon (trim t) = false)
    (hds : ∀ d ∈ ds, startsColon (trim d) = true)
    (hrest : ∀ r₀ ∈ rest.head?, startsColon (trim r₀) = false) :
    processLines opts (t :: (ds ++ rest)) prev st =
      Node.dl (fmt opts (trim t))
          ((ds.map fun l => trim ((trim l).drop 1)).map (fmt opts)) (gep opts .lists) ::
        processLines opts rest (lastOr ds (some t)) st := by
  have hdef : defTrigger (trim t) (ds ++ rest) = true := by
    rcases ds with _ | ⟨d, ds'⟩
    · exact absurd rfl hne
    · simp [defTrigger, hcur, hcol, hds d (List.mem_cons_self d ds')]
  have htake : (ds ++ rest).takeWhile (fun l => startsColon (trim l)) = ds := by
    rw [List.takeWhile_append_of_pos (by exact hds)]
    cases rest with
    | nil => simp
    | cons r₀ tl =>
      have := hrest r₀ rfl
      simp [List.takeWhile, this]
  simp only [processLines]
  rw [if_neg (by simp [hskip]), if_neg hg, if_pos hdef, htake]
  rw [skip_consumes opts ds rest (some t) _ (by simp)]
  have hst : ({ st with skipLines := 0 } : PState) = st := by rw [← hskip]
  rw [hst]

theorem fence_accum (opts : ParseOptions) (mid : List Str) :
    ∀ (c : Str) (rest : List Str) (prev : Option Str) (st : PState),
      st.inCodeBlock = true → st.skipLines = 0 →
      ¬ ((st.nestingLevel : Int) > opts.maxNestingLevel) →
      (∀ l ∈ mid, plainInFence l) → isFence (trim c) = true →
      (∀ r₀ ∈ rest.head?, startsColon (trim r₀) = false) →
      processLines opts (mid ++ c :: rest) prev st =
        Node.codeBlock (st.codeBlockLang.map fun lg => opts.langPrefix ++ lg)
            (List.intercalate ['\n'] (st.codeBlock ++ mid)) (gep opts .codeBlocks) ::
          processLines opts rest (some c)
            { st with inCodeBlock := false, codeBlock := [], codeBlockLang := none } := by
  induction mid with
  | nil =>
    intro c rest prev st hin hskip hg hplain hc hrest
    have hd : defTrigger (trim c) rest = false := by
      cases rest with
      | nil => rfl
      | cons r₀ tl => exact defTrigger_false_of_next _ r₀ tl (hrest r₀ rfl)
    show processLines opts (c :: rest) prev st = _
    simp only [processLines]
    rw [if_neg (by simp [hskip]), if_neg hg, if_neg (by simp [hd]),
      if_neg (by simp [fence_not_task _ hc]), if_neg (by simp [fence_not_heading _ hc]),
      if_pos hc, if_pos hin, List.append_nil]
  | cons m mid ih =>
    intro c rest prev st hin hskip hg hplain hc hrest
    have hm := hplain m (List.mem_cons_self m mid)
    have hd : defTrigger (trim m) (mid ++ c :: rest) = false := by
      cases mid with
      | nil => exact defTrigger_false_of_next _ c rest (fence_not_colon _ hc)
      | cons m2 tl => exact defTrigger_false_of_next _ m2 (tl ++ c :: rest) (hplain m2 (by simp)).2.2.2
    show processLines opts (m :: (mid ++ c :: rest)) prev st = _
    simp only [processLines]
    rw [if_neg (by simp [hskip]), if_neg hg, if_neg (by simp [hd]),
      if_neg (by simp [hm.2.1]), if_neg (by simp [hm.2.2.1]), if_neg (by simp [hm.1]),
      if_pos hin]
    rw [ih c rest (some m) { st with codeBlock := st.codeBlock ++ [m] } hin hskip hg
      (fun x hx => hplain x (List.mem_cons_of_mem m hx)) hc hrest]
    simp [List.append_assoc]

theorem codeblock_single_node (opts : ParseOptions) (o : Str) (mid : List Str) (c : Str)
    (rest : List Str) (prev : Option Str) (st : PState)
    (hin : st.inCodeBlock = false) (hskip : st.skipLines = 0)
    (hg : ¬ ((st.nestingLevel : Int) > opts.maxNestingLevel))
    (ho : isFence (trim o) = true) (hc : isFence (trim c) = true)
    (hplain : ∀ l ∈ mid, plainInFence l)
    (hrest : ∀ r₀ ∈ rest.head?, startsColon (trim r₀) = false) :
    processLines opts (o :: (mid ++ c :: rest)) prev st =
      Node.codeBlock ((langOf (trim o)).map fun lg => opts.langPrefix ++ lg)
          (List.intercalate ['\n'] mid) (gep opts .codeBlocks) ::
        processLines opts rest (some c)
          { st with inCodeBlock := false, codeBlock := [], codeBlockLang := none } := by
  have hd : defTrigger (trim o) (mid ++ c :: rest) = false := by
    cases mid with
    | nil => exact defTrigger_false_of_next _ c rest (fence_not_colon _ hc)
    | cons m2 tl => exact defTrigger_false_of_next _ m2 (tl ++ c :: rest) (hplain m2 (by simp)).2.2.2
  simp only [processLines]
  rw [if_neg (by simp [hskip]), if_neg hg, if_neg (by simp [hd]),
    if_neg (by simp [fence_not_task _ ho]), if_neg (by simp [fence_not_heading _ ho]),
    if_pos ho, if_neg (by simp [hin])]
  rw [fence_accum opts mid c rest (some o)
    { st with inCodeBlock := true, codeBlockLang := langOf (trim o), codeBlock := [] }
    rfl hskip hg hplain hc hrest]
  rfl

/-- C2 (amended): a definition list yields exactly one node and its consumed
lines are skipped, never re-classified; a closed code block whose interior
lines all reach the buffering branch yields exactly one node whose code is
the buffered interior. (Tables, by contrast, are re-visited line by line —
see the counterexample.) -/
theorem c2_amended :
    (∀ (opts : ParseOptions) (t : Str) (ds rest : List Str) (prev : Option Str) (st : PState),
      st.skipLines = 0 → ¬ ((st.nestingLevel : Int) > opts.maxNestingLevel) →
      ds ≠ [] → (trim t).isEmpty = false → startsColon (trim t) = false →
      (∀ d ∈ ds, startsColon (trim d) = true) →
      (∀ r₀ ∈ rest.head?, startsColon (trim r₀) = false) →
      processLines opts (t :: (ds ++ rest)) prev st =
        Node.dl (fmt opts (trim t)) ((ds.map fun l => trim ((trim l).drop 1)).map (fmt opts))
            (gep opts .lists) ::
          processLines opts rest (lastOr ds (some t)) st)
    ∧ (∀ (opts : ParseOptions) (o : Str) (mid : List Str) (c : Str) (rest : List Str)
        (prev : Option Str) (st : PState),
      st.inCodeBlock = false → st.skipLines = 0 →
      ¬ ((st.nestingLevel : Int) > opts.maxNestingLevel) →
      isFence (trim o) = true → isFence (trim c) = true →
      (∀ l ∈ mid, plainInFence l) → (∀ r₀ ∈ rest.head?, startsColon (trim r₀) = false) →
      processLines opts (o :: (mid ++ c :: rest)) prev st =
        Node.codeBlock ((langOf (trim o)).map fun lg => opts.langPrefix ++ lg)
            (List.intercalate ['\n'] mid) (gep opts .codeBlocks) ::
          processLines opts rest (some c)
            { st with inCodeBlock := false, codeBlock := [], codeBlockLang := none }) :=
  ⟨fun opts t ds rest prev st h1 h2 h3 h4 h5 h6 h7 =>
     dl_single_node opts t ds rest prev st h1 h2 h3 h4 h5 h6 h7,
   fun opts o mid c rest prev st h1 h2 h3 h4 h5 h6 h7 =>
     codeblock_single_node opts o mid c rest prev st h1 h2 h3 h4 h5 h6 h7⟩

/-- C2 (amended) witness: `Term` followed by `: d` yields exactly the one
definition-list node; a fenced `x` line yields exactly the one code-block
node. -/
theorem c2_amended_witness :
    processLines defaultOpts ["Term".data, ": d".data] none st0 =
      [Node.dl "Term".data ["d".data] ⟨none, none⟩]
    ∧ processLines defaultOpts ["```".data, "x".data, "```".data] none st0 =
      [Node.codeBlock none "x".data ⟨none, none⟩] := by
  constructor
  · exact c2_amended.1 defaultOpts "Term".data [": d".data] [] none st0 rfl (by decide)
      (by decide) (by decide) (by decide) (by decide) (by simp)
  · exact c2_amended.2 defaultOpts "```".data ["x".data] "```".data [] none st0 rfl rfl
      (by decide) (by decide) (by decide)
      (fun l hl => by
        rw [List.mem_singleton] at hl
        subst hl
        exact ⟨by decide, by decide, by decide, by decide⟩)
      (by simp)

theorem isTask_hashC (xs : Str) : isTask ('#' :: xs) = false := rfl
theorem isFence_hashC (xs : Str) : isFence ('#' :: xs) = false := rfl
theorem isQuote_hashC (xs : Str) : isQuote ('#' :: xs) = false := rfl
theorem isTableLine_hashC (xs : Str) : isTableLine ('#' :: xs) = false := rfl
theorem isListLine_hashC (xs : Str) : isListLine ('#' :: xs) = false := rfl
theorem startsColon_hashC (xs : Str) : startsColon ('#' :: xs) = false := rfl

theorem ws_ne_hash (c : Char) (h : jsWs c = true) : (c == '#') = false := by
  simp [jsWs] at h
  rcases h with (((((h | h) | h) | h) | h) | h) <;> subst h <;> rfl

theorem lead_repl (n : Nat) (w : Char) (l : Str) (hw : jsWs w = true) :
    leadHashes (List.replicate n '#' ++ w :: l) = n := by
  unfold leadHashes
  rw [List.takeWhile_append_of_pos (by
    intro a ha
    rw [List.eq_of_mem_replicate ha]
    rfl)]
  simp [List.takeWhile, ws_ne_hash w hw]

theorem charAt_repl (n : Nat) (w : Char) (l : Str) :
    charAt (List.replicate n '#' ++ w :: l) n = some w := by
  induction n with
  | zero => rfl
  | succ m ih => simpa [List.replicate, charAt] using ih

theorem wsAt_repl (n : Nat) (w : Char) (l : Str) (hw : jsWs w = true) :
    wsAt (List.replicate n '#' ++ w :: l) n = true := by
  simp [wsAt, charAt_repl, hw]

theorem isHeadingLine_repl (n : Nat) (w : Char) (l : Str) (hw : jsWs w = true)
    (h1 : 1 ≤ n) (h6 : n ≤ 6) :
    isHeadingLine (List.replicate n '#' ++ w :: l) = true := by
  unfold isHeadingLine
  rw [lead_repl n w l hw, wsAt_repl n w l hw, decide_eq_true h1, decide_eq_true h6]
  rfl

theorem trimR_append (l₁ l₂ : Str) (h : ∃ x ∈ l₂, jsWs x = false) :
    trimR (l₁ ++ l₂) = l₁ ++ trimR l₂ := by
  obtain ⟨x, hx, hxw⟩ := h
  have hne : l₂.reverse.dropWhile jsWs ≠ [] := by
    intro hnil
    have := List.dropWhile_eq_nil_iff.mp hnil x (List.mem_reverse.mpr hx)
    rw [hxw] at this
    exact Bool.noConfusion this
  unfold trimR
  rw [List.reverse_append, List.dropWhile_append]
  rw [if_neg (by simpa [List.isEmpty_iff] using hne)]
  rw [List.reverse_append, List.reverse_reverse]

theorem trimL_cons_of_not_ws (c : Char) (l : Str) (h : jsWs c = false) :
    trimL (c :: l) = c :: l := by
  simp [trimL, List.dropWhile, h]

theorem trim_repl_decomp (n : Nat) (w : Char) (text : Str) (hn : 1 ≤ n)
    (ht : trim text ≠ []) :
    trim (List.replicate n '#' ++ w :: text) =
      List.replicate n '#' ++ w :: trimR text := by
  have hex : ∃ x ∈ text, jsWs x = false := by
    by_contra hall
    push_neg at hall
    have : text.dropWhile jsWs = [] := by
      rw [List.dropWhile_eq_nil_iff]
      intro x hx
      have := hall x hx
      cases hjs : jsWs x
      · exact absurd hjs this
      · rfl
    apply ht
    unfold trim trimL trimR
    rw [this]
    rfl
  have hex2 : ∃ x ∈ w :: text, jsWs x = false := ⟨hex.choose, List.mem_cons_of_mem w hex.choose_spec.1, hex.choose_spec.2⟩
  obtain ⟨m, rfl⟩ : ∃ m, n = m + 1 := ⟨n - 1, by omega⟩
  unfold trim
  rw [show List.replicate (m + 1) '#' ++ w :: text = '#' :: (List.replicate m '#' ++ w :: text) from rfl]
  rw [trimL_cons_of_not_ws '#' _ rfl]
  rw [show ('#' :: (List.replicate m '#' ++ w :: text) : Str) = List.replicate (m + 1) '#' ++ w :: text from rfl]
  rw [trimR_append _ _ hex2]
  congr 1
  exact (trimR_append [w] text hex).trans rfl

theorem tryDelim_not_hash (o : Char) (os cd : Str) (s : Str) (h : (o == '#') = false) :
    tryDelim (o :: os) cd ('#' :: s) = none := by
  simp [tryDelim, List.isPrefixOf, h]

theorem scanDelim_hashHead (fuel : Nat) (o : Char) (os cd pre post : Str) (s : Str)
    (h : (o == '#') = false) :
    ∃ u, scanDelim fuel (o :: os) cd pre post ('#' :: s) = '#' :: u := by
  cases fuel with
  | zero => exact ⟨s, rfl⟩
  | succ f =>
    refine ⟨scanDelim f (o :: os) cd pre post s, ?_⟩
    simp only [scanDelim]
    rw [tryDelim_not_hash o os cd s h]

theorem ruleDelim_hashHead (o : Char) (os cd pre post : Str) (s : Str)
    (h : (o == '#') = false) :
    ∃ u, ruleDelim (o :: os) cd pre post ('#' :: s) = '#' :: u :=
  scanDelim_hashHead _ o os cd pre post s h

theorem tryLink_hash (opts : ParseOptions) (s : Str) : tryLink opts ('#' :: s) = none := rfl

theorem ruleLink_hashHead (opts : ParseOptions) (s : Str) :
    ∃ u, ruleLink opts ('#' :: s) = '#' :: u := by
  refine ⟨scanLink s.length opts s, ?_⟩
  show scanLink (s.length + 1) opts ('#' :: s) = _
  simp only [scanLink]
  rw [tryLink_hash]

theorem fmt_hashHead (opts : ParseOptions) (s : Str) : ∃ u, fmt opts ('#' :: s) = '#' :: u := by
  unfold fmt
  rw [if_neg (by simp : ¬ (List.isEmpty ('#' :: s) = true))]
  simp only []
  obtain ⟨u1, h1⟩ := ruleDelim_hashHead '$' [] ['$'] _ _ s (by decide)
  rw [h1]
  obtain ⟨u2, h2⟩ := ruleDelim_hashHead '~' ['~'] ['~', '~'] _ _ u1 (by decide)
  rw [h2]
  obtain ⟨u3, h3⟩ := ruleDelim_hashHead '^' [] ['^'] _ _ u2 (by decide)
  rw [h3]
  obtain ⟨u4, h4⟩ := ruleDelim_hashHead '~' [] ['~'] _ _ u3 (by decide)
  rw [h4]
  obtain ⟨u5, h5⟩ := ruleDelim_hashHead '=' ['='] ['=', '='] _ _ u4 (by decide)
  rw [h5]
  obtain ⟨u6, h6⟩ := ruleDelim_hashHead '*' ['*', '*'] ['*', '*', '*'] _ _ u5 (by decide)
  rw [h6]
  obtain ⟨u7, h7⟩ := ruleDelim_hashHead '_' ['_', '_'] ['_', '_', '_'] _ _ u6 (by decide)
  rw [h7]
  obtain ⟨u8, h8⟩ := ruleDelim_hashHead '*' ['*'] ['*', '*'] _ _ u7 (by decide)
  rw [h8]
  obtain ⟨u9, h9⟩ := ruleDelim_hashHead '_' ['_'] ['_', '_'] _ _ u8 (by decide)
  rw [h9]
  obtain ⟨u10, h10⟩ := ruleDelim_hashHead '*' [] ['*'] _ _ u9 (by decide)
  rw [h10]
  obtain ⟨u11, h11⟩ := ruleDelim_hashHead '_' [] ['_'] _ _ u10 (by decide)
  rw [h11]
  obtain ⟨u12, h12⟩ := ruleDelim_hashHead btick [] [btick] _ _ u11 (by decide)
  rw [h12]
  obtain ⟨u13, h13⟩ := ruleLink_hashHead opts u12
  rw [h13]
  exact ⟨u13, rfl⟩

theorem trim_hash_ne (u : Str) : (trim ('#' :: u)).isEmpty = false := by
  unfold trim
  rw [trimL_cons_of_not_ws '#' u rfl]
  rcases he : trimR ('#' :: u) with _ | ⟨a, b⟩
  · exfalso
    unfold trimR at he
    rw [List.reverse_eq_nil_iff] at he
    have := List.dropWhile_eq_nil_iff.mp he '#' (List.mem_reverse.mpr (List.mem_cons_self _ _))
    exact absurd this (by decide)
  · rfl

theorem heading_level_exact (opts : ParseOptions) (N : Nat) (w : Char) (text : Str)
    (h1 : 1 ≤ N) (h6 : N ≤ 6) (hw : jsWs w = true) (ht : trim text ≠ [])
    (hmax : 0 ≤ opts.maxNestingLevel) :
    processLines opts [List.replicate N '#' ++ w :: text] none st0 =
      [Node.heading N (headingId (headingTextOf (List.replicate N '#' ++ w :: text)))
        (fmt opts (headingClean (headingTextOf (List.replicate N '#' ++ w :: text))))
        (gep opts .headings)] := by
  have hguard : ¬ ((st0.nestingLevel : Int) > opts.maxNestingLevel) := by
    simpa using not_lt.mpr hmax
  obtain ⟨M, rfl⟩ : ∃ M, N = M + 1 := ⟨N - 1, by omega⟩
  have htrim : trim (List.replicate (M + 1) '#' ++ w :: text) =
      List.replicate (M + 1) '#' ++ w :: trimR text :=
    trim_repl_decomp (M + 1) w text (by omega) ht
  have hcons : trim (List.replicate (M + 1) '#' ++ w :: text) =
      '#' :: (List.replicate M '#' ++ w :: trimR text) := by rw [htrim]; exact rfl
  have hT : isTask (trim (List.replicate (M + 1) '#' ++ w :: text)) = false := by
    rw [hcons]; exact isTask_hashC _
  have hH : isHeadingLine (trim (List.replicate (M + 1) '#' ++ w :: text)) = true := by
    rw [htrim]; exact isHeadingLine_repl (M + 1) w _ hw (by omega) h6
  have hLev : headingLevelOf (List.replicate (M + 1) '#' ++ w :: text) = M + 1 := by
    unfold headingLevelOf
    rw [lead_repl (M + 1) w text hw]
    rw [if_neg (by omega)]
    exact Nat.min_eq_left h6
  simp only [processLines]
  rw [if_neg (by decide : ¬ (0 < st0.skipLines))]
  rw [if_neg hguard]
  rw [if_neg (by simp [defTrigger])]
  rw [if_neg (by simp [hT])]
  rw [if_pos hH]
  rw [hLev]

theorem over6_paragraph (opts : ParseOptions) (N : Nat) (w : Char) (text : Str)
    (h7 : 7 ≤ N) (hw : jsWs w = true) (ht : trim text ≠ [])
    (hmax : 0 ≤ opts.maxNestingLevel)
    (himg : findImage (trim (List.replicate N '#' ++ w :: text)) = none) :
    processLines opts [List.replicate N '#' ++ w :: text] none st0 =
      [Node.paragraph (fmt opts (trim (List.replicate N '#' ++ w :: text)))
        (gep opts .paragraphs)] := by
  have hguard : ¬ ((st0.nestingLevel : Int) > opts.maxNestingLevel) := by
    simpa using not_lt.mpr hmax
  obtain ⟨k, rfl⟩ : ∃ k, N = k + 7 := ⟨N - 7, by omega⟩
  have htrim : trim (List.replicate (k + 7) '#' ++ w :: text) =
      List.replicate (k + 7) '#' ++ w :: trimR text :=
    trim_repl_decomp (k + 7) w text (by omega) ht
  have hcons : trim (List.replicate (k + 7) '#' ++ w :: text) =
      '#' :: (List.replicate (k + 6) '#' ++ w :: trimR text) := by rw [htrim]; exact rfl
  have hlead : leadHashes (trim (List.replicate (k + 7) '#' ++ w :: text)) = k + 7 := by
    rw [htrim]; exact lead_repl _ _ _ hw
  have hH : isHeadingLine (trim (List.replicate (k + 7) '#' ++ w :: text)) = false := by
    unfold isHeadingLine
    rw [hlead, decide_eq_false (by omega : ¬ (k + 7 ≤ 6))]
    simp
  have hT : isTask (trim (List.replicate (k + 7) '#' ++ w :: text)) = false := by
    rw [hcons]; exact isTask_hashC _
  have hF : isFence (trim (List.replicate (k + 7) '#' ++ w :: text)) = false := by
    rw [hcons]; exact isFence_hashC _
  have hQ : isQuote (trim (List.replicate (k + 7) '#' ++ w :: text)) = false := by
    rw [hcons]; exact isQuote_hashC _
  have hTab : isTableLine (trim (List.replicate (k + 7) '#' ++ w :: text)) = false := by
    rw [hcons]; exact isTableLine_hashC _
  have hLst : isListLine (trim (List.replicate (k + 7) '#' ++ w :: text)) = false := by
    rw [hcons]; exact isListLine_hashC _
  obtain ⟨u, hu⟩ : ∃ u, fmt opts (trim (List.replicate (k + 7) '#' ++ w :: text)) = '#' :: u := by
    rw [hcons]; exact fmt_hashHead opts _
  have hpar : (trim (fmt opts (trim (List.replicate (k + 7) '#' ++ w :: text)))).isEmpty = false := by
    rw [hu]; exact trim_hash_ne u
  simp only [processLines]
  rw [if_neg (by decide : ¬ (0 < st0.skipLines)), if_neg hguard, if_neg (by simp [defTrigger]),
    if_neg (by simp [hT]), if_neg (by simp [hH]), if_neg (by simp [hF]),
    if_neg (by decide : ¬ (st0.inCodeBlock = true)), if_neg (by simp [hQ]),
    if_neg (by simp [hTab])]
  simp only [himg]
  rw [if_neg (by simp [hLst]), if_neg (by simp [hpar])]

/-- C3 (amended): a line of `N` leading `#` (1 ≤ N ≤ 6) followed by a
whitespace character and non-blank text always produces a heading node with
level exactly `N`; with more than six leading `#` the heading rule never
matches and the line falls through to the paragraph rule, unless the
(unanchored) image rule matches somewhere in the line — see the
counterexample. -/
theorem c3_amended :
    (∀ (opts : ParseOptions) (N : Nat) (w : Char) (text : Str),
      1 ≤ N → N ≤ 6 → jsWs w = true → trim text ≠ [] → 0 ≤ opts.maxNestingLevel →
      processLines opts [List.replicate N '#' ++ w :: text] none st0 =
        [Node.heading N (headingId (headingTextOf (List.replicate N '#' ++ w :: text)))
          (fmt opts (headingClean (headingTextOf (List.replicate N '#' ++ w :: text))))
          (gep opts .headings)])
    ∧ (∀ (opts : ParseOptions) (N : Nat) (w : Char) (text : Str),
      7 ≤ N → jsWs w = true → trim text ≠ [] → 0 ≤ opts.maxNestingLevel →
      findImage (trim (List.replicate N '#' ++ w :: text)) = none →
      processLines opts [List.replicate N '#' ++ w :: text] none st0 =
        [Node.paragraph (fmt opts (trim (List.replicate N '#' ++ w :: text)))
          (gep opts .paragraphs)]) :=
  ⟨fun opts N w text h1 h6 hw ht hmax =>
     heading_level_exact opts N w text h1 h6 hw ht hmax,
   fun opts N w text h7 hw ht hmax himg =>
     over6_paragraph opts N w text h7 hw ht hmax himg⟩

/-- C3 (amended) witness: `## Hi` yields a level-2 heading; `####### x`
(seven `#`, no image token) yields a paragraph. -/
theorem c3_amended_witness :
    processLines defaultOpts ["## Hi".data] none st0 =
      [Node.heading 2 none "Hi".data ⟨none, none⟩]
    ∧ processLines defaultOpts ["####### x".data] none st0 =
      [Node.paragraph "####### x".data ⟨none, none⟩] := by
  constructor
  · exact c3_amended.1 defaultOpts 2 ' ' "Hi".data (by decide) (by decide) (by decide)
      (by decide) (by decide)
  · exact c3_amended.2 defaultOpts 7 ' ' "x".data (by decide) (by decide) (by decide)
      (by decide) (by decide)
